import Mathlib

/-!
# Verification of the dicomity grouping / ordering / volume-assembly pipeline

Shallow embedding of `src/dicomity/dicom.py` and `src/dicomity/load.py`,
together with spec-modelled definitions for the parts of the repository that
are not shipped under `src/` (`dicomity.group`, `dicomity.util`,
`dicomity.types`, `dicomity.dictionary`).

Modelling conventions:
* A file's contents are a `List Nat` of byte values.
* numpy arrays are modelled by their `shape` and `dtype` (pixel contents play
  no role in any property considered here; numpy broadcasting of slice
  assignments is not modelled).
* The external pixel decoder (`read_dicom_image`, i.e. pydicom) is a black-box
  parameter `decode : String → Except DicomError (Option NpArray)`:
  `Except.error` models a raised exception, `Except.ok none` models a `None`
  return, `Except.ok (some img)` a successfully decoded pixel array.
* Reporting (`pyreporting`) is a sink: functions return, next to their result,
  the list of reporting events they emitted, in order.  Calls into the
  external decoder and metadata reader are also recorded as events so that
  "no further decoding happens" is a provable statement.
* Python `round` on a non-negative quotient is round-half-to-even, modelled
  exactly on the rational `num / den`.
-/

set_option maxRecDepth 4000

namespace Dicomity

/-- Reporting-sink events (from `pyreporting`) plus instrumentation events
recording each call into the external decoder / metadata reader. -/
inductive Event where
  | showProgress (label : String)
  | updateProgress (value : Nat)
  | completeProgress
  | showWarning (code text : String)
  | showMessage (code text : String)
  | decodeCall (filename : String)
  | readMetaCall (filename : String)
deriving DecidableEq, Repr

/-- `True` exactly on `Event.showWarning` events. -/
def Event.isShowWarning : Event → Bool
  | .showWarning _ _ => true
  | _ => false

/-- `True` exactly on `Event.showMessage` events. -/
def Event.isShowMessage : Event → Bool
  | .showMessage _ _ => true
  | _ => false

/-- `True` on a warning event carrying the given warning code. -/
def Event.isWarningWithCode (code : String) : Event → Bool
  | .showWarning c _ => c == code
  | _ => false

/-- Python `round(num / den)` for natural `num`, `den`: rounding half to even
on the exact rational value.  (`den = 0` would raise in Python; the pipeline
never divides by zero because the loops emitting progress run zero times when
the file list is empty.) -/
def pyRound (num den : Nat) : Nat :=
  if den = 0 then 0
  else
    let q := num / den
    let r := num % den
    if 2 * r < den then q
    else if den < 2 * r then q + 1
    else if q % 2 = 0 then q else q + 1

/-- The byte values of the magic string `b"DICM"`. -/
def dicmMagic : List Nat := [68, 73, 67, 77]

/-- `is_dicom` from `dicom.py`: open the file, `seek(128)`, `read(4)` and
compare with `b"DICM"`.  A `read` past the end of the file returns however
many bytes remain (possibly none), so a short file simply compares unequal. -/
def is_dicom (file : List Nat) : Bool :=
  (file.drop 128).take 4 == dicmMagic

/-- `os.path.join(path, name)` for a relative `name`. -/
def joinPath (path name : String) : String := path ++ "/" ++ name

/-- The tag dictionary (`dicomity.dictionary.DicomDictionary`, not under
`src/`): all that `read_dicom_tags` uses of it is its `allTags()` method,
modelled as a field. -/
structure DicomDictionary where
  allTags : List String

/-- `read_dicom_tags` from `dicom.py`.  `dcmread` is the black-box pydicom
reader, abstracted over the tag filter it receives (the `file_name` and
`stop_before_pixels=True` arguments are fixed by the call site).  A supplied
`dictionary` is a truthy object in Python, so the `if dictionary:` branch
replaces `specific_tags` by `dictionary.allTags()`. -/
def read_dicom_tags {β : Type} (dcmread : String → Option (List String) → β)
    (file_name : String) (dictionary : Option DicomDictionary)
    (specific_tags : Option (List String)) : β :=
  let tags := match dictionary with
    | some d => some d.allTags
    | none => specific_tags
  dcmread file_name tags

/-! ## Claim C4: the signature check -/

/-- Auxiliary: the first four elements of a list as a list literal,
characterised by optional indexing. -/
theorem take_four_eq_iff (l : List Nat) (a b c d : Nat) :
    l.take 4 = [a, b, c, d] ↔
      l[0]? = some a ∧ l[1]? = some b ∧ l[2]? = some c ∧ l[3]? = some d := by
  match l with
  | [] => simp
  | [x] => simp
  | [x, y] => simp
  | [x, y, z] => simp
  | x :: y :: z :: w :: rest => simp [and_assoc]

/-- C4: `is_dicom` classifies a file as matching exactly when the four bytes
at offset 128 are `"DICM"`; any file too short to have four bytes at offset
128 (in particular a zero-length stub) is classified as not matching, and no
error is raised (`is_dicom` is a total function of the file contents). -/
theorem is_dicom_magic_characterisation (f : List Nat) :
    (is_dicom f = true ↔
      f[128]? = some 68 ∧ f[129]? = some 73 ∧ f[130]? = some 67 ∧
        f[131]? = some 77) ∧
    (f.length < 132 → is_dicom f = false) := by
  have hiff : is_dicom f = true ↔
      f[128]? = some 68 ∧ f[129]? = some 73 ∧ f[130]? = some 67 ∧
        f[131]? = some 77 := by
    rw [is_dicom, beq_iff_eq, dicmMagic, take_four_eq_iff]
    simp [List.getElem?_drop]
  refine ⟨hiff, fun hlen => ?_⟩
  rw [Bool.eq_false_iff]
  intro htrue
  have h131 := (hiff.mp htrue).2.2.2
  have : 131 < f.length := by
    by_contra hc
    rw [List.getElem?_eq_none (by omega)] at h131
    exact Option.noConfusion h131
  omega

/-- Witness for C4: a 132-byte file whose last four bytes are `"DICM"` is
classified as matching, and a zero-length stub is classified as not
matching. -/
theorem is_dicom_magic_characterisation_witness :
    is_dicom (List.replicate 128 0 ++ [68, 73, 67, 77]) = true ∧
      is_dicom [] = false :=
  ⟨(is_dicom_magic_characterisation
      (List.replicate 128 0 ++ [68, 73, 67, 77])).1.mpr (by decide),
    (is_dicom_magic_characterisation []).2 (by decide)⟩

/-! ## Claim C10: `read_dicom_tags` ignores `specific_tags` when a
dictionary is supplied -/

/-- C10: whenever a (truthy) `dictionary` is supplied, `read_dicom_tags`
requests `dictionary.allTags()` from the decoder, and the result does not
depend on the `specific_tags` argument at all. -/
theorem read_dicom_tags_ignores_specific_tags {β : Type}
    (dcmread : String → Option (List String) → β) (file_name : String)
    (d : DicomDictionary) (t₁ t₂ : Option (List String)) :
    read_dicom_tags dcmread file_name (some d) t₁ =
        dcmread file_name (some d.allTags) ∧
      read_dicom_tags dcmread file_name (some d) t₁ =
        read_dicom_tags dcmread file_name (some d) t₂ :=
  ⟨rfl, rfl⟩

/-! ## The volume assembler: `load_images_from_stack` (`load.py`) -/

/-- A numpy array, abstracted to its shape and dtype (dtype as the string
numpy would report; pixel contents are irrelevant to every property here). -/
structure NpArray where
  shape : List Nat
  dtype : String
deriving DecidableEq, Repr

/-- `CoreWrapper` (`core.types.CoreWrapper`): `raw_image` is unset on a
freshly constructed wrapper and set once the voxel buffer is allocated. -/
structure CoreWrapper where
  raw_image : Option NpArray
deriving DecidableEq, Repr

/-- An exception raised by the external decoder (pydicom parse failure). -/
inductive DicomError where
  | parseError
deriving DecidableEq, Repr

/-- A Python exception escaping from the pipeline. -/
inductive PyError where
  | dicom (e : DicomError)
  | typeError
  | indexError
  | valueError
deriving DecidableEq, Repr

/-- `GroupingMetadata` (`dicomity.types`, not under `src/`), modelled from the
spec's TagSnapshot: orientation direction cosines, opaque series key, optional
3D patient position, and the pixel-grid attributes `load_images_from_stack`
reads (`Rows`, `Columns`, `SamplesPerPixel`). -/
structure GroupingMetadata where
  seriesKey : String
  orientationRow : ℚ × ℚ × ℚ
  orientationCol : ℚ × ℚ × ℚ
  position : Option (ℚ × ℚ × ℚ)
  Rows : Nat
  Columns : Nat
  SamplesPerPixel : Nat
deriving DecidableEq, Repr

/-- One (filename, metadata) entry of a stack, as stored by the grouper. -/
structure StackItem where
  filename : String
  metadata : GroupingMetadata
deriving DecidableEq, Repr

/-- The condition `data_type == np.char` from `load.py`.  `np.char` is the
`numpy.char` module (an alias of `numpy.core.defchararray`), not a dtype;
numpy dtype equality with an operand that cannot be converted to a dtype
yields `False`, so this comparison is `False` for every dtype — including the
character dtypes it was evidently meant to detect. -/
def dtypeEqualsNpCharModule (_dataType : String) : Bool := false

/-- The slice loop of `load_images_from_stack` (`for file_index in
range(1, num_slices)`): decode each remaining slice and write it into the
buffer.  A raised decoder exception propagates; a `None` return makes the
numpy slice assignment raise a `TypeError`.  A successful iteration reports
`round(100 * file_index / num_slices)` progress. -/
def loadSlicesLoop (decode : String → Except DicomError (Option NpArray))
    (numSlices : Nat) : List StackItem → Nat → Except PyError Unit × List Event
  | [], _ => (Except.ok (), [])
  | item :: rest, fileIndex =>
    match decode item.filename with
    | Except.error e =>
        (Except.error (PyError.dicom e), [Event.decodeCall item.filename])
    | Except.ok none =>
        (Except.error PyError.typeError, [Event.decodeCall item.filename])
    | Except.ok (some _) =>
        let next := loadSlicesLoop decode numSlices rest (fileIndex + 1)
        (next.1, Event.decodeCall item.filename ::
          Event.updateProgress (pyRound (100 * fileIndex) numSlices) :: next.2)

/-- `load_images_from_stack` from `load.py`.  `decode` is the black-box
`read_dicom_image`.  Indexing an empty stack (`stack[0]`) raises `IndexError`;
a `None` first slice returns the still-unset wrapper; otherwise the buffer is
allocated with shape `[rows, columns, num_slices]`, gaining a trailing
`samples_per_pixel` dimension when `samples_per_pixel > 1`, and dtype taken
from the first decoded slice (subject to the `np.char` comparison). -/
def load_images_from_stack (decode : String → Except DicomError (Option NpArray))
    (stack : List StackItem) : Except PyError CoreWrapper × List Event :=
  let ev0 : List Event :=
    [Event.showProgress "Reading pixel data", Event.updateProgress 0]
  match stack with
  | [] => (Except.error PyError.indexError, ev0)
  | s0 :: rest =>
    let numSlices := rest.length + 1
    match decode s0.filename with
    | Except.error e =>
        (Except.error (PyError.dicom e), ev0 ++ [Event.decodeCall s0.filename])
    | Except.ok none =>
        (Except.ok ⟨none⟩, ev0 ++ [Event.decodeCall s0.filename])
    | Except.ok (some firstImage) =>
        let charDetected := dtypeEqualsNpCharModule firstImage.dtype
        let dataType := if charDetected then "int8" else firstImage.dtype
        let msgEvents : List Event :=
          if charDetected then
            [Event.showMessage "load_images_from_stack:SettingDatatypeToInt8"
              "Char datatype detected. Setting to int8"]
          else []
        let spp := s0.metadata.SamplesPerPixel
        let shape :=
          if spp > 1 then
            [s0.metadata.Rows, s0.metadata.Columns, numSlices, spp]
          else
            [s0.metadata.Rows, s0.metadata.Columns, numSlices]
        let res := loadSlicesLoop decode numSlices rest 1
        match res.1 with
        | Except.error e =>
            (Except.error e,
              ev0 ++ Event.decodeCall s0.filename :: (msgEvents ++ res.2))
        | Except.ok _ =>
            (Except.ok ⟨some ⟨shape, dataType⟩⟩,
              ev0 ++ Event.decodeCall s0.filename ::
                (msgEvents ++ res.2 ++ [Event.completeProgress]))

/-- If every slice handled by the loop decodes to an actual array, the loop
succeeds. -/
theorem loadSlicesLoop_ok (decode : String → Except DicomError (Option NpArray))
    (numSlices : Nat) (items : List StackItem)
    (h : ∀ it ∈ items, ∃ im, decode it.filename = Except.ok (some im)) :
    ∀ k, (loadSlicesLoop decode numSlices items k).1 = Except.ok () := by
  induction items with
  | nil => intro k; rfl
  | cons item rest ih =>
    intro k
    obtain ⟨im, him⟩ := h item (List.mem_cons_self item rest)
    have hrest := fun it hit => h it (List.mem_cons_of_mem item hit)
    simp only [loadSlicesLoop, him]
    exact ih hrest (k + 1)

/-- If the slices before `bad` decode to arrays and `bad` raises, the loop
propagates the decoder's error. -/
theorem loadSlicesLoop_error (decode : String → Except DicomError (Option NpArray))
    (numSlices : Nat) (bad : StackItem) (post : List StackItem) (e : DicomError)
    (hbad : decode bad.filename = Except.error e) :
    ∀ (pre : List StackItem) (k : Nat),
      (∀ it ∈ pre, ∃ im, decode it.filename = Except.ok (some im)) →
      (loadSlicesLoop decode numSlices (pre ++ bad :: post) k).1 =
        Except.error (PyError.dicom e) := by
  intro pre
  induction pre with
  | nil =>
    intro k _
    simp only [List.nil_append, loadSlicesLoop, hbad]
  | cons item rest ih =>
    intro k h
    obtain ⟨im, him⟩ := h item (List.mem_cons_self item rest)
    have hrest := fun it hit => h it (List.mem_cons_of_mem item hit)
    simp only [List.cons_append, loadSlicesLoop, him]
    exact ih (k + 1) hrest

/-! ## Claim C2: first-slice decode yielding nothing is a soft failure -/

/-- C2: if decoding slice 0 returns `None`, `load_images_from_stack` returns
the unset wrapper immediately: no exception (`Except.ok`), no buffer
allocation (`raw_image = none`), and the event trace shows exactly one decoder
call — the one for slice 0 — so no further slice is decoded. -/
theorem load_images_first_slice_none
    (decode : String → Except DicomError (Option NpArray))
    (s0 : StackItem) (rest : List StackItem)
    (h : decode s0.filename = Except.ok none) :
    load_images_from_stack decode (s0 :: rest) =
      (Except.ok ⟨none⟩,
        [Event.showProgress "Reading pixel data", Event.updateProgress 0,
          Event.decodeCall s0.filename]) := by
  simp [load_images_from_stack, h]

/-- A decoder for the C2 witness: slice `"/d/a"` decodes to `None`. -/
def noneDecode : String → Except DicomError (Option NpArray) :=
  fun _ => Except.ok none

/-- Metadata used by the concrete examples: a 2×3 single-channel slice. -/
def exMeta : GroupingMetadata :=
  ⟨"series1", (1, 0, 0), (0, 1, 0), some (0, 0, 0), 2, 3, 1⟩

/-- Witness for C2 at a concrete two-slice stack. -/
theorem load_images_first_slice_none_witness :
    load_images_from_stack noneDecode
        [⟨"/d/a", exMeta⟩, ⟨"/d/b", exMeta⟩] =
      (Except.ok ⟨none⟩,
        [Event.showProgress "Reading pixel data", Event.updateProgress 0,
          Event.decodeCall "/d/a"]) :=
  load_images_first_slice_none noneDecode ⟨"/d/a", exMeta⟩ [⟨"/d/b", exMeta⟩] rfl

/-! ## Claim C1: shape of the assembled volume -/

/-- C1 (amended): when slice 0 decodes to an array and every remaining slice
also decodes to an array, the returned volume's buffer has shape
`(rows, columns, N)` for `samplesPerPixel = 1` and `(rows, columns, N, 3)`
for `samplesPerPixel = 3`, with `rows`/`columns` from slice 0's metadata. -/
theorem load_images_shape
    (decode : String → Except DicomError (Option NpArray))
    (s0 : StackItem) (rest : List StackItem) (img0 : NpArray)
    (h0 : decode s0.filename = Except.ok (some img0))
    (hrest : ∀ it ∈ rest, ∃ im, decode it.filename = Except.ok (some im)) :
    ∃ arr : NpArray,
      (load_images_from_stack decode (s0 :: rest)).1 = Except.ok ⟨some arr⟩ ∧
      (s0.metadata.SamplesPerPixel = 1 →
        arr.shape = [s0.metadata.Rows, s0.metadata.Columns, rest.length + 1]) ∧
      (s0.metadata.SamplesPerPixel = 3 →
        arr.shape = [s0.metadata.Rows, s0.metadata.Columns, rest.length + 1, 3]) := by
  have hloop := loadSlicesLoop_ok decode (rest.length + 1) rest hrest 1
  simp only [load_images_from_stack, h0, hloop, dtypeEqualsNpCharModule,
    Bool.false_eq_true, if_false, ite_false]
  refine ⟨_, rfl, fun h1 => ?_, fun h3 => ?_⟩
  · rw [h1]; simp
  · rw [h3]; simp

/-- A decoder for the C1 counterexample: the first slice decodes, every other
file raises a parse error. -/
def cxDecode : String → Except DicomError (Option NpArray) :=
  fun f =>
    if f = "/d/a" then Except.ok (some ⟨[2, 3], "int16"⟩)
    else Except.error DicomError.parseError

/-- C1 counterexample: a two-slice stack whose first slice decodes
successfully, yet `load_images_from_stack` raises (slice 1 fails to decode),
so no volume of any shape is returned — the claim's hypothesis on slice 0
alone does not suffice. -/
theorem load_images_shape_counterexample :
    cxDecode "/d/a" = Except.ok (some ⟨[2, 3], "int16"⟩) ∧
      (load_images_from_stack cxDecode
          [⟨"/d/a", exMeta⟩, ⟨"/d/b", exMeta⟩]).1 =
        Except.error (PyError.dicom DicomError.parseError) := by
  constructor <;> rfl

/-- A decoder for the C1 witness: every file decodes to a 2×3 int16 array. -/
def okDecode : String → Except DicomError (Option NpArray) :=
  fun _ => Except.ok (some ⟨[2, 3], "int16"⟩)

/-- Witness for C1: the amended theorem applied to a concrete two-slice,
single-channel stack. -/
theorem load_images_shape_witness :
    ∃ arr : NpArray,
      (load_images_from_stack okDecode
          [⟨"/d/a", exMeta⟩, ⟨"/d/b", exMeta⟩]).1 = Except.ok ⟨some arr⟩ ∧
      (exMeta.SamplesPerPixel = 1 → arr.shape = [exMeta.Rows, exMeta.Columns, 2]) ∧
      (exMeta.SamplesPerPixel = 3 → arr.shape = [exMeta.Rows, exMeta.Columns, 2, 3]) :=
  load_images_shape okDecode ⟨"/d/a", exMeta⟩ [⟨"/d/b", exMeta⟩]
    ⟨[2, 3], "int16"⟩ rfl
    (fun _ _ => ⟨⟨[2, 3], "int16"⟩, rfl⟩)

/-! ## Claim C3: a mid-stack decode failure propagates -/

/-- C3: if the slices before `bad` decode to arrays (so execution reaches
`bad`, which sits at index `pre.length ≥ 1`) and decoding `bad` raises, the
error propagates out of `load_images_from_stack` uncaught: the result is that
error and no volume is returned. -/
theorem load_images_midstack_failure
    (decode : String → Except DicomError (Option NpArray))
    (pre : List StackItem) (bad : StackItem) (post : List StackItem)
    (e : DicomError)
    (hlen : 1 ≤ pre.length)
    (hpre : ∀ it ∈ pre, ∃ im, decode it.filename = Except.ok (some im))
    (hbad : decode bad.filename = Except.error e) :
    (load_images_from_stack decode (pre ++ bad :: post)).1 =
      Except.error (PyError.dicom e) := by
  match pre, hlen with
  | s0 :: pre', _ =>
    obtain ⟨im0, him0⟩ := hpre s0 (List.mem_cons_self s0 pre')
    have hpre' := fun it hit => hpre it (List.mem_cons_of_mem s0 hit)
    have hloop := loadSlicesLoop_error decode
      ((pre' ++ bad :: post).length + 1) bad post e hbad pre' 1 hpre'
    simp only [List.cons_append, load_images_from_stack, him0, hloop]

/-- A decoder for the C3 witness: `"/d/a"` and `"/d/b"` decode, `"/d/c"`
raises a parse error. -/
def midFailDecode : String → Except DicomError (Option NpArray) :=
  fun f =>
    if f = "/d/c" then Except.error DicomError.parseError
    else Except.ok (some ⟨[2, 3], "int16"⟩)

/-- Witness for C3: slice 2 of a three-slice stack fails to decode and the
parse error propagates. -/
theorem load_images_midstack_failure_witness :
    (load_images_from_stack midFailDecode
        ([⟨"/d/a", exMeta⟩, ⟨"/d/b", exMeta⟩] ++ ⟨"/d/c", exMeta⟩ :: [])).1 =
      Except.error (PyError.dicom DicomError.parseError) :=
  load_images_midstack_failure midFailDecode
    [⟨"/d/a", exMeta⟩, ⟨"/d/b", exMeta⟩] ⟨"/d/c", exMeta⟩ [] DicomError.parseError
    (by decide)
    (by
      intro it hit
      refine ⟨⟨[2, 3], "int16"⟩, ?_⟩
      fin_cases hit <;> rfl)
    rfl

/-! ## Claim C7: the char-dtype substitution never fires -/

/-- Metadata for the C7 failing input: a 2×2 single-channel slice. -/
def charMeta : GroupingMetadata :=
  ⟨"series1", (1, 0, 0), (0, 1, 0), some (0, 0, 0), 2, 2, 1⟩

/-- A decoder whose first slice has the character dtype `"S1"`. -/
def charDecode : String → Except DicomError (Option NpArray) :=
  fun _ => Except.ok (some ⟨[2, 2], "S1"⟩)

/-- C7 (evaluating the code at the failing input): for a first slice of
character dtype `"S1"`, the volume keeps dtype `"S1"` — it is *not*
substituted by `"int8"` — and no informational message is emitted, because
`data_type == np.char` compares the dtype with the `numpy.char` module and is
always `False`. -/
theorem load_images_char_dtype_not_substituted :
    (load_images_from_stack charDecode [⟨"/d/c", charMeta⟩]).1 =
        Except.ok ⟨some ⟨[2, 2, 1], "S1"⟩⟩ ∧
      ((load_images_from_stack charDecode
          [⟨"/d/c", charMeta⟩]).2.countP Event.isShowMessage) = 0 := by
  constructor <;> rfl

/-! ## The grouper (`dicomity.group`, not under `src/`) and the metadata pass -/

/-- Modelled from the spec: `DicomGrouper` owns the groups, in creation
order; each group is the ordered list of (filename, metadata) pairs added to
it (`dicomity.group` is not under `src/`). -/
structure DicomGrouper where
  groups : List (List StackItem)
deriving DecidableEq, Repr

/-- A freshly constructed `DicomGrouper()`. -/
def DicomGrouper.empty : DicomGrouper := ⟨[]⟩

/-- The series key a group matches on: that of its first member. -/
def groupKey (grp : List StackItem) : Option String :=
  grp.head?.map (fun it => it.metadata.seriesKey)

/-- Modelled from the spec: append the item to the first group whose series
key matches, or create a new group at the end. -/
def addToGroups (item : StackItem) : List (List StackItem) → List (List StackItem)
  | [] => [[item]]
  | grp :: rest =>
    if groupKey grp = some item.metadata.seriesKey then (grp ++ [item]) :: rest
    else grp :: addToGroups item rest

/-- Modelled from the spec: `addItem(filename, tagSnapshot)` — appends the
slice to the group whose series key matches, creating a new group if none
does. -/
def DicomGrouper.add_item (g : DicomGrouper) (filename : String)
    (metadata : GroupingMetadata) : DicomGrouper :=
  ⟨addToGroups ⟨filename, metadata⟩ g.groups⟩

/-- Modelled from the spec: `numberOfGroups()`. -/
def DicomGrouper.number_of_groups (g : DicomGrouper) : Nat := g.groups.length

/-- Modelled from the spec: `largestStack()` selects the group with the most
members, ties keeping the first group encountered; `none` when there are no
groups at all (where Python would raise). -/
def DicomGrouper.largest_stack (g : DicomGrouper) : Option (List StackItem) :=
  g.groups.foldl
    (fun best grp =>
      match best with
      | none => some grp
      | some b => if b.length < grp.length then some grp else some b)
    none

/-- All filenames currently held by the grouper, over all groups. -/
def grouperFilenames (g : DicomGrouper) : List String :=
  g.groups.flatten.map (fun it => it.filename)

/-- Lexicographic comparison of character lists by code point. -/
def charListLE : List Char → List Char → Bool
  | [], _ => true
  | _ :: _, [] => false
  | a :: as, b :: bs =>
    if a.toNat < b.toNat then true
    else if b.toNat < a.toNat then false
    else charListLE as bs

/-- The filename order used by `sort_filenames`: lexicographic by code
point. -/
def fileLE (a b : String) : Prop := charListLE a.data b.data = true

instance : DecidableRel fileLE :=
  fun a b => inferInstanceAs (Decidable (charListLE a.data b.data = true))

/-- `charListLE` is total. -/
theorem charListLE_total : ∀ a b : List Char,
    charListLE a b = true ∨ charListLE b a = true := by
  intro a
  induction a with
  | nil => intro b; exact Or.inl rfl
  | cons x as ih =>
    intro b
    cases b with
    | nil => exact Or.inr rfl
    | cons y bs =>
      rcases Nat.lt_trichotomy x.toNat y.toNat with h | h | h
      · exact Or.inl (by simp [charListLE, h])
      · rcases ih bs with hab | hba
        · exact Or.inl (by simp [charListLE, h, hab])
        · exact Or.inr (by simp [charListLE, h, hba])
      · exact Or.inr (by simp [charListLE, h])

/-- `charListLE` is transitive. -/
theorem charListLE_trans : ∀ a b c : List Char,
    charListLE a b = true → charListLE b c = true → charListLE a c = true := by
  intro a
  induction a with
  | nil => intro b c _ _; rfl
  | cons x as ih =>
    intro b c hab hbc
    cases b with
    | nil => exact absurd hab (by simp [charListLE])
    | cons y bs =>
      cases c with
      | nil => exact absurd hbc (by simp [charListLE])
      | cons z cs =>
        simp only [charListLE] at hab hbc ⊢
        by_cases hxy : x.toNat < y.toNat
        · by_cases hyz : y.toNat < z.toNat
          · simp [Nat.lt_trans hxy hyz]
          · simp only [if_pos hxy, if_neg hyz] at hbc ⊢
            by_cases hzy : z.toNat < y.toNat
            · simp [hzy] at hbc
            · have : x.toNat < z.toNat := by omega
              simp [this]
        · simp only [if_neg hxy] at hab
          by_cases hyx : y.toNat < x.toNat
          · simp [hyx] at hab
          · simp only [if_neg hyx] at hab
            have hxy' : x.toNat = y.toNat := by omega
            by_cases hyz : y.toNat < z.toNat
            · have hxz : x.toNat < z.toNat := by omega
              simp [hxz]
            · simp only [if_neg hyz] at hbc ⊢
              by_cases hzy : z.toNat < y.toNat
              · simp [hzy] at hbc
              · simp only [if_neg hyz, if_neg hzy] at hbc
                have h1 : ¬x.toNat < z.toNat := by omega
                have h2 : ¬z.toNat < x.toNat := by omega
                simp [h1, h2, ih bs cs hab hbc]

/-- `charListLE` is antisymmetric. -/
theorem charListLE_antisymm : ∀ a b : List Char,
    charListLE a b = true → charListLE b a = true → a = b := by
  intro a
  induction a with
  | nil =>
    intro b _ hba
    cases b with
    | nil => rfl
    | cons y bs => exact absurd hba (by simp [charListLE])
  | cons x as ih =>
    intro b hab hba
    cases b with
    | nil => exact absurd hab (by simp [charListLE])
    | cons y bs =>
      simp only [charListLE] at hab hba
      by_cases hxy : x.toNat < y.toNat
      · simp [hxy] at hba
        omega
      · by_cases hyx : y.toNat < x.toNat
        · simp [hxy, hyx] at hab
        · simp only [if_neg hxy, if_neg hyx] at hab hba
          have hx : x = y := by
            have h : x.toNat = y.toNat := by omega
            rw [← Char.ofNat_toNat x, h, Char.ofNat_toNat]
          rw [hx, ih bs hab hba]

instance : IsTotal String fileLE :=
  ⟨fun a b => charListLE_total a.data b.data⟩

instance : IsTrans String fileLE :=
  ⟨fun a b c hab hbc => charListLE_trans a.data b.data c.data hab hbc⟩

instance : IsAntisymm String fileLE :=
  ⟨fun a b hab hba => String.ext (charListLE_antisymm a.data b.data hab hba)⟩

/-- Modelled from the spec: `sort_filenames` (`dicomity.util`, not under
`src/`) sorts the filenames into numerical order; modelled as a stable sort
of the filename strings by a total, antisymmetric order. -/
def sort_filenames (filenames : List String) : List String :=
  List.insertionSort fileLE filenames

/-- The warning text emitted for a non-DICOM file in the metadata pass. -/
def notADicomText (combined : String) : String :=
  "load_metadata_from_dicom_files: The file " ++ combined ++
    " is not a DICOM file and will be removed from this series."

/-- The per-file loop of `load_metadata_from_dicom_files`: test each file
with `is_dicom`; matching files have their grouping metadata read and are
added to the grouper, non-matching files are excluded with a warning; a
progress update `round(100 * file_index / num_slices)` follows either way. -/
def metadataLoop (fs : String → List Nat) (readMeta : String → GroupingMetadata)
    (image_path : String) (numSlices : Nat) :
    List String → Nat → DicomGrouper → DicomGrouper × List Event
  | [], _, g => (g, [])
  | name :: rest, fileIndex, g =>
    let combined := joinPath image_path name
    if is_dicom (fs combined) then
      let next := metadataLoop fs readMeta image_path numSlices rest
        (fileIndex + 1) (g.add_item combined (readMeta combined))
      (next.1, Event.readMetaCall combined ::
        Event.updateProgress (pyRound (100 * fileIndex) numSlices) :: next.2)
    else
      let next := metadataLoop fs readMeta image_path numSlices rest
        (fileIndex + 1) g
      (next.1,
        Event.showWarning "load_metadata_from_dicom_files:NotADicomFile"
            (notADicomText combined) ::
          Event.updateProgress (pyRound (100 * fileIndex) numSlices) :: next.2)

/-- `load_metadata_from_dicom_files` from `load.py`: show progress, sort the
filenames numerically, run the per-file loop on the sorted list against a
fresh grouper, and complete progress.  `fs` maps a path to the file's bytes;
`readMeta` is the black-box `read_grouping_metadata`. -/
def load_metadata_from_dicom_files (fs : String → List Nat)
    (readMeta : String → GroupingMetadata) (image_path : String)
    (filenames : List String) : DicomGrouper × List Event :=
  let ev0 : List Event :=
    [Event.showProgress "Reading image metadata", Event.updateProgress 0]
  let res := metadataLoop fs readMeta image_path filenames.length
    (sort_filenames filenames) 0 DicomGrouper.empty
  (res.1, ev0 ++ res.2 ++ [Event.completeProgress])

/-- Membership after `addToGroups`: exactly the old members plus the new
item. -/
theorem mem_addToGroups (item x : StackItem) :
    ∀ groups : List (List StackItem),
      x ∈ (addToGroups item groups).flatten ↔ x = item ∨ x ∈ groups.flatten := by
  intro groups
  induction groups with
  | nil => simp [addToGroups]
  | cons grp rest ih =>
    by_cases h : groupKey grp = some item.metadata.seriesKey
    · simp only [addToGroups, if_pos h, List.flatten_cons, List.mem_append,
        List.append_assoc, List.mem_cons, List.mem_singleton]
      tauto
    · simp only [addToGroups, if_neg h, List.flatten_cons, List.mem_append, ih]
      tauto

/-- Loop invariant: every filename the loop adds to the grouper, and every
file whose metadata it reads, passed the `is_dicom` check. -/
theorem metadataLoop_only_dicom (fs : String → List Nat)
    (readMeta : String → GroupingMetadata) (image_path : String)
    (numSlices : Nat) :
    ∀ (names : List String) (k : Nat) (g : DicomGrouper),
      (∀ c ∈ grouperFilenames g, is_dicom (fs c) = true) →
      (∀ c ∈ grouperFilenames
          (metadataLoop fs readMeta image_path numSlices names k g).1,
        is_dicom (fs c) = true) ∧
      (∀ c, Event.readMetaCall c ∈
          (metadataLoop fs readMeta image_path numSlices names k g).2 →
        is_dicom (fs c) = true) := by
  intro names
  induction names with
  | nil =>
    intro k g hg
    exact ⟨hg, by intro c hc; simp [metadataLoop] at hc⟩
  | cons name rest ih =>
    intro k g hg
    by_cases h : is_dicom (fs (joinPath image_path name)) = true
    · have hg' : ∀ c ∈ grouperFilenames
          (g.add_item (joinPath image_path name)
            (readMeta (joinPath image_path name))), is_dicom (fs c) = true := by
        intro c hc
        simp only [grouperFilenames, DicomGrouper.add_item, List.mem_map] at hc
        obtain ⟨y, hy, rfl⟩ := hc
        rcases (mem_addToGroups _ y _).mp hy with rfl | hy'
        · exact h
        · exact hg _ (List.mem_map_of_mem (fun it => it.filename) hy')
      have := ih (k + 1) (g.add_item (joinPath image_path name)
        (readMeta (joinPath image_path name))) hg'
      refine ⟨?_, ?_⟩
      · intro c hc
        rw [metadataLoop] at hc
        simp only [if_pos h] at hc
        exact this.1 c hc
      · intro c hc
        rw [metadataLoop] at hc
        simp only [if_pos h, List.mem_cons] at hc
        rcases hc with heq | hc | hc
        · cases heq; exact h
        · cases hc
        · exact this.2 c hc
    · have := ih (k + 1) g hg
      refine ⟨?_, ?_⟩
      · intro c hc
        rw [metadataLoop] at hc
        simp only [if_neg h] at hc
        exact this.1 c hc
      · intro c hc
        rw [metadataLoop] at hc
        simp only [if_neg h, List.mem_cons] at hc
        rcases hc with heq | hc | hc
        · cases heq
        · cases hc
        · exact this.2 c hc

/-- The loop warns about every name in its list that fails the `is_dicom`
check. -/
theorem metadataLoop_warns (fs : String → List Nat)
    (readMeta : String → GroupingMetadata) (image_path : String)
    (numSlices : Nat) :
    ∀ (names : List String) (k : Nat) (g : DicomGrouper) (name : String),
      name ∈ names → is_dicom (fs (joinPath image_path name)) = false →
      Event.showWarning "load_metadata_from_dicom_files:NotADicomFile"
          (notADicomText (joinPath image_path name)) ∈
        (metadataLoop fs readMeta image_path numSlices names k g).2 := by
  intro names
  induction names with
  | nil => intro k g name hmem; cases hmem
  | cons hd rest ih =>
    intro k g name hmem hnot
    rcases List.mem_cons.mp hmem with rfl | hmem'
    · have hc : ¬(is_dicom (fs (joinPath image_path name)) = true) := by
        simp [hnot]
      rw [metadataLoop]
      simp only [if_neg hc]
      exact List.mem_cons_self _ _
    · by_cases h : is_dicom (fs (joinPath image_path hd)) = true
      · rw [metadataLoop]
        simp only [if_pos h, List.mem_cons]
        exact Or.inr (Or.inr (ih (k + 1) _ name hmem' hnot))
      · rw [metadataLoop]
        simp only [if_neg h, List.mem_cons]
        exact Or.inr (Or.inr (ih (k + 1) g name hmem' hnot))

/-! ## Claim C5: exclusion of non-member files in the metadata pass -/

/-- C5 (amended): every candidate file that fails the magic-signature check is
excluded before any metadata extraction is attempted — it is never added to
the grouper and its metadata is never read — a warning naming it is emitted,
and the pipeline still runs to completion.  (Exclusion of files *named*
`DICOMDIR` does not happen in this pass: `load_metadata_from_dicom_files`
calls `is_dicom`, never `is_dicom_image_file`.) -/
theorem metadata_pass_excludes_non_dicom (fs : String → List Nat)
    (readMeta : String → GroupingMetadata) (image_path : String)
    (filenames : List String) (name : String)
    (hmem : name ∈ filenames)
    (hnot : is_dicom (fs (joinPath image_path name)) = false) :
    joinPath image_path name ∉
        grouperFilenames
          (load_metadata_from_dicom_files fs readMeta image_path filenames).1 ∧
      Event.readMetaCall (joinPath image_path name) ∉
        (load_metadata_from_dicom_files fs readMeta image_path filenames).2 ∧
      Event.showWarning "load_metadata_from_dicom_files:NotADicomFile"
          (notADicomText (joinPath image_path name)) ∈
        (load_metadata_from_dicom_files fs readMeta image_path filenames).2 ∧
      Event.completeProgress ∈
        (load_metadata_from_dicom_files fs readMeta image_path filenames).2 := by
  have hempty : ∀ c ∈ grouperFilenames DicomGrouper.empty,
      is_dicom (fs c) = true := by
    intro c hc
    simp [grouperFilenames, DicomGrouper.empty] at hc
  have hinv := metadataLoop_only_dicom fs readMeta image_path filenames.length
    (sort_filenames filenames) 0 DicomGrouper.empty hempty
  have hsorted_mem : name ∈ sort_filenames filenames :=
    ((List.perm_insertionSort _ filenames).mem_iff).mpr hmem
  have hwarn := metadataLoop_warns fs readMeta image_path filenames.length
    (sort_filenames filenames) 0 DicomGrouper.empty name hsorted_mem hnot
  refine ⟨?_, ?_, ?_, ?_⟩
  · intro hin
    have := hinv.1 _ hin
    rw [hnot] at this
    exact Bool.false_ne_true this
  · intro hin
    simp only [load_metadata_from_dicom_files, List.mem_append,
      List.mem_cons, List.mem_singleton] at hin
    rcases hin with (h | h) | h
    · rcases h with h | h | h <;> simp_all
    · have := hinv.2 _ h
      rw [hnot] at this
      exact Bool.false_ne_true this
    · simp_all
  · simp only [load_metadata_from_dicom_files, List.mem_append]
    exact Or.inl (Or.inr hwarn)
  · simp [load_metadata_from_dicom_files]

/-- A filesystem mapping every path to an empty (zero-byte) file. -/
def emptyFs : String → List Nat := fun _ => []

/-- Witness for C5: a single empty (hence non-DICOM) file is excluded, its
metadata is never read, a warning is emitted, and the pass completes. -/
theorem metadata_pass_excludes_non_dicom_witness :
    joinPath "/d" "a" ∉
        grouperFilenames
          (load_metadata_from_dicom_files emptyFs (fun _ => exMeta) "/d" ["a"]).1 ∧
      Event.readMetaCall (joinPath "/d" "a") ∉
        (load_metadata_from_dicom_files emptyFs (fun _ => exMeta) "/d" ["a"]).2 ∧
      Event.showWarning "load_metadata_from_dicom_files:NotADicomFile"
          (notADicomText (joinPath "/d" "a")) ∈
        (load_metadata_from_dicom_files emptyFs (fun _ => exMeta) "/d" ["a"]).2 ∧
      Event.completeProgress ∈
        (load_metadata_from_dicom_files emptyFs (fun _ => exMeta) "/d" ["a"]).2 :=
  metadata_pass_excludes_non_dicom emptyFs (fun _ => exMeta) "/d" ["a"] "a"
    (by decide) (by decide)

/-- The bytes of a file carrying the `"DICM"` signature at offset 128. -/
def dicmBytes : List Nat := List.replicate 128 0 ++ dicmMagic

/-- A filesystem on which every file carries the `"DICM"` signature. -/
def dicmFs : String → List Nat := fun _ => dicmBytes

/-- C5 counterexample: a candidate file named `DICOMDIR` whose contents carry
the `"DICM"` signature is *not* excluded by the metadata pass — it is added
to the grouper and no warning is emitted — contradicting the claim that files
named with the directory-index sentinel are excluded. -/
theorem metadata_pass_dicomdir_counterexample :
    grouperFilenames
        (load_metadata_from_dicom_files dicmFs (fun _ => exMeta) "/d"
          ["DICOMDIR"]).1 = ["/d/DICOMDIR"] ∧
      ((load_metadata_from_dicom_files dicmFs (fun _ => exMeta) "/d"
          ["DICOMDIR"]).2.countP Event.isShowWarning) = 0 := by
  constructor <;> rfl

/-! ## Geometric reconstruction (`dicomity.group.DicomStack`, not under
`src/`): modelled from the spec, §4.2 -/

/-- 3D cross product. -/
def cross3 (u v : ℚ × ℚ × ℚ) : ℚ × ℚ × ℚ :=
  (u.2.1 * v.2.2 - u.2.2 * v.2.1,
    u.2.2 * v.1 - u.1 * v.2.2,
    u.1 * v.2.1 - u.2.1 * v.1)

/-- 3D dot product. -/
def dot3 (u v : ℚ × ℚ × ℚ) : ℚ :=
  u.1 * v.1 + u.2.1 * v.2.1 + u.2.2 * v.2.2

/-- Modelled from the spec: the dominant slice axis is the cross product of
the two in-plane direction cosines. -/
def sliceAxis (m : GroupingMetadata) : ℚ × ℚ × ℚ :=
  cross3 m.orientationRow m.orientationCol

/-- The scalar coordinate of a slice along its dominant axis (the `(0,0,0)`
placeholder for a missing position is only ever used under the
all-positions-known guard). -/
def itemScalar (it : StackItem) : ℚ :=
  dot3 (sliceAxis it.metadata) (it.metadata.position.getD (0, 0, 0))

/-- Whether every slice of the group has a known 3D position. -/
def allPositionsKnown (items : List StackItem) : Bool :=
  items.all (fun it => it.metadata.position.isSome)

/-- Consecutive differences of a list of scalars. -/
def diffs : List ℚ → List ℚ
  | a :: b :: rest => (b - a) :: diffs (b :: rest)
  | _ => []

/-- Modelled from the spec: the median of a list of rationals — middle
element of the sorted list for odd length, mean of the two middle elements
for even length (the numpy/MATLAB convention); `0` on the empty list. -/
def median (l : List ℚ) : ℚ :=
  let s := List.insertionSort (fun a b : ℚ => a ≤ b) l
  let n := s.length
  if n = 0 then 0
  else if n % 2 = 1 then s.getD (n / 2) 0
  else (s.getD (n / 2 - 1) 0 + s.getD (n / 2) 0) / 2

/-- Comparison of (slice, scalar) pairs by scalar, used for the stable sort
of the slices along the dominant axis. -/
def scalarLE (a b : StackItem × ℚ) : Prop := a.2 ≤ b.2

instance : DecidableRel scalarLE :=
  fun a b => inferInstanceAs (Decidable (a.2 ≤ b.2))

instance : IsTotal (StackItem × ℚ) scalarLE :=
  ⟨fun a b => le_total a.2 b.2⟩

instance : IsTrans (StackItem × ℚ) scalarLE :=
  ⟨fun _ _ _ h₁ h₂ => le_trans h₁ h₂⟩

/-- The result of `sortAndGetParameters`: the reordered stack, the slice
thickness, the global origin, the per-slice sorted scalar positions, and the
reporting events emitted. -/
structure SortResult where
  sortedStack : List StackItem
  slice_thickness : ℚ
  global_origin_mm : ℚ × ℚ × ℚ
  sorted_positions : List ℚ
  events : List Event
deriving DecidableEq, Repr

/-- Modelled from the spec (§4.2): `sortAndGetParameters`.  When every slice
has a known position, project each position onto the dominant axis, stably
sort the slices by that scalar (ties keep the caller-supplied filename
order), take the median consecutive difference (the single difference for
exactly two slices) as the slice thickness, and the 3D position of the first
sorted slice as the global origin.  Otherwise fall back to the caller's
order, an unknown-sentinel thickness of `0`, the index sequence as positions,
and warn that geometric ordering is unavailable. -/
def sort_and_get_parameters (items : List StackItem) : SortResult :=
  if allPositionsKnown items then
    let pairs := items.map (fun it => (it, itemScalar it))
    let sortedPairs := List.insertionSort scalarLE pairs
    let sortedStack := sortedPairs.map (fun p => p.1)
    let sortedPositions := sortedPairs.map (fun p => p.2)
    let thickness :=
      if items.length = 2 then (diffs sortedPositions).headD 0
      else median (diffs sortedPositions)
    let origin :=
      match sortedStack with
      | [] => ((0 : ℚ), (0 : ℚ), (0 : ℚ))
      | s :: _ => s.metadata.position.getD (0, 0, 0)
    ⟨sortedStack, thickness, origin, sortedPositions, []⟩
  else
    ⟨items, 0, (0, 0, 0),
      (List.range items.length).map (fun i => (i : ℚ)),
      [Event.showWarning "sort_and_get_parameters:NoSliceLocation"
        "Geometric ordering unavailable; falling back to filename order"]⟩

/-! ## Claim C9: sortedness and order-independence -/

/-- C9: for a group in which every slice has a known position, the
`sorted_positions` produced by `sort_and_get_parameters` form a
non-decreasing sequence; and the metadata pass (grouping included) yields an
identical result on any permutation of the input filenames, because the pass
numerically sorts the filenames before grouping. -/
theorem sorted_positions_monotone_and_order_independent :
    (∀ items : List StackItem, allPositionsKnown items = true →
      List.Sorted (· ≤ ·) (sort_and_get_parameters items).sorted_positions) ∧
    (∀ (fs : String → List Nat) (readMeta : String → GroupingMetadata)
        (image_path : String) (l l' : List String), l.Perm l' →
      load_metadata_from_dicom_files fs readMeta image_path l =
        load_metadata_from_dicom_files fs readMeta image_path l') := by
  constructor
  · intro items hall
    simp only [sort_and_get_parameters, if_pos hall]
    have hs := List.sorted_insertionSort scalarLE
      (items.map (fun it => (it, itemScalar it)))
    exact List.Pairwise.map (fun p : StackItem × ℚ => p.2)
      (fun a b (h : scalarLE a b) => h) hs
  · intro fs readMeta image_path l l' hperm
    have hsort : sort_filenames l = sort_filenames l' := by
      refine List.eq_of_perm_of_sorted
        ((List.perm_insertionSort _ l).trans
          (hperm.trans (List.perm_insertionSort _ l').symm))
        (List.sorted_insertionSort _ l) (List.sorted_insertionSort _ l')
    simp only [load_metadata_from_dicom_files, hsort, hperm.length_eq]

/-- Witness for C9: a concrete one-slice group with a known position, and a
concrete two-element permutation of the filename list. -/
theorem sorted_positions_monotone_and_order_independent_witness :
    List.Sorted (· ≤ ·)
        (sort_and_get_parameters [⟨"/d/a", exMeta⟩]).sorted_positions ∧
      load_metadata_from_dicom_files emptyFs (fun _ => exMeta) "/d"
          ["b", "a"] =
        load_metadata_from_dicom_files emptyFs (fun _ => exMeta) "/d"
          ["a", "b"] :=
  ⟨sorted_positions_monotone_and_order_independent.1 [⟨"/d/a", exMeta⟩]
      (by decide),
    sorted_positions_monotone_and_order_independent.2 emptyFs (fun _ => exMeta)
      "/d" ["b", "a"] ["a", "b"] (by decide)⟩

/-! ## Claim C8: the slice-thickness estimator -/

/-- `getD` on a replicated list hits the replicated value. -/
theorem getD_replicate (d : ℚ) :
    ∀ (k i : Nat), i < k → (List.replicate k d).getD i 0 = d := by
  intro k
  induction k with
  | zero => intro i h; omega
  | succ k ih =>
    intro i h
    cases i with
    | zero => rfl
    | succ i => exact ih i (by omega)

/-- `getD` before the appended last element hits the replicated value. -/
theorem getD_replicate_append (d y : ℚ) :
    ∀ (m i : Nat), i < m → (List.replicate m d ++ [y]).getD i 0 = d := by
  intro m
  induction m with
  | zero => intro i h; omega
  | succ m ih =>
    intro i h
    cases i with
    | zero => rfl
    | succ i => exact ih i (by omega)

/-- A constant list is sorted. -/
theorem sorted_replicate (k : Nat) (d : ℚ) :
    List.Sorted (· ≤ ·) (List.replicate k d) := by
  induction k with
  | zero => exact List.sorted_nil
  | succ k ih =>
    rw [List.replicate_succ, List.sorted_cons]
    exact ⟨fun b hb => le_of_eq (List.eq_of_mem_replicate hb).symm, ih⟩

/-- `median` evaluated through any sorted rearrangement of its argument. -/
theorem median_eq_of_sorted (l s : List ℚ) (hperm : l.Perm s)
    (hs : List.Sorted (· ≤ ·) s) :
    median l =
      if s.length = 0 then 0
      else if s.length % 2 = 1 then s.getD (s.length / 2) 0
      else (s.getD (s.length / 2 - 1) 0 + s.getD (s.length / 2) 0) / 2 := by
  have hins : List.insertionSort (fun a b : ℚ => a ≤ b) l = s :=
    List.eq_of_perm_of_sorted ((List.perm_insertionSort _ l).trans hperm)
      (List.sorted_insertionSort _ l) hs
  simp only [median, hins]

/-- The median of a non-empty constant list is the constant. -/
theorem median_replicate (k : Nat) (d : ℚ) (hk : 1 ≤ k) :
    median (List.replicate k d) = d := by
  rw [median_eq_of_sorted (List.replicate k d) (List.replicate k d)
    (List.Perm.refl _) (sorted_replicate k d)]
  rw [List.length_replicate]
  rw [if_neg (by omega)]
  by_cases hodd : k % 2 = 1
  · rw [if_pos hodd, getD_replicate d k (k / 2) (by omega)]
  · rw [if_neg hodd, getD_replicate d k (k / 2 - 1) (by omega),
      getD_replicate d k (k / 2) (by omega)]
    ring

/-- The median of `m ≥ 2` copies of `d` with one further value appended is
still `d`, whatever the appended value. -/
theorem median_replicate_append (m : Nat) (d y : ℚ) (hm : 2 ≤ m) :
    median (List.replicate m d ++ [y]) = d := by
  rcases le_total d y with hdy | hyd
  · have hs : List.Sorted (· ≤ ·) (List.replicate m d ++ [y]) := by
      rw [List.Sorted, List.pairwise_append]
      refine ⟨sorted_replicate m d, List.pairwise_singleton _ _, ?_⟩
      intro a ha b hb
      rw [List.eq_of_mem_replicate ha, List.mem_singleton.mp hb]
      exact hdy
    rw [median_eq_of_sorted _ _ (List.Perm.refl _) hs]
    rw [List.length_append, List.length_replicate, List.length_singleton]
    rw [if_neg (by omega)]
    by_cases hodd : (m + 1) % 2 = 1
    · rw [if_pos hodd, getD_replicate_append d y m ((m + 1) / 2) (by omega)]
    · rw [if_neg hodd,
        getD_replicate_append d y m ((m + 1) / 2 - 1) (by omega),
        getD_replicate_append d y m ((m + 1) / 2) (by omega)]
      ring
  · have hperm : (List.replicate m d ++ [y]).Perm (y :: List.replicate m d) :=
      List.perm_append_singleton y (List.replicate m d)
    have hs : List.Sorted (· ≤ ·) (y :: List.replicate m d) := by
      rw [List.sorted_cons]
      refine ⟨fun b hb => ?_, sorted_replicate m d⟩
      rw [List.eq_of_mem_replicate hb]
      exact hyd
    have hcons : ∀ i, 1 ≤ i → i ≤ m →
        (y :: List.replicate m d).getD i 0 = d := by
      intro i h1 h2
      obtain ⟨i', rfl⟩ : ∃ i', i = i' + 1 := ⟨i - 1, by omega⟩
      rw [List.getD_cons_succ]
      exact getD_replicate d m i' (by omega)
    rw [median_eq_of_sorted _ _ hperm hs]
    rw [List.length_cons, List.length_replicate]
    rw [if_neg (by omega)]
    by_cases hodd : (m + 1) % 2 = 1
    · rw [if_pos hodd, hcons ((m + 1) / 2) (by omega) (by omega)]
    · rw [if_neg hodd, hcons ((m + 1) / 2 - 1) (by omega) (by omega),
        hcons ((m + 1) / 2) (by omega) (by omega)]
      ring

/-- C8 (amended): with all positions known and the projected scalars already
in non-decreasing caller order, `sort_and_get_parameters` returns thickness
`d` when (i) there are exactly two slices a single difference `d` apart,
(ii) there are `N ≥ 3` evenly spaced slices with spacing `d`, or (iii) there
are `N ≥ 4` slices, evenly spaced with spacing `d` except for the last one,
whose position is an arbitrary outlier beyond its predecessor.  (An
*interior* outlier can change the result — see the counterexample.) -/
theorem slice_thickness_median_robust (items : List StackItem) (d y : ℚ)
    (hall : allPositionsKnown items = true)
    (hsorted : List.Sorted (· ≤ ·) (items.map itemScalar))
    (hcase :
      (items.length = 2 ∧ diffs (items.map itemScalar) = [d]) ∨
        (3 ≤ items.length ∧
          diffs (items.map itemScalar) =
            List.replicate (items.length - 1) d) ∨
        (4 ≤ items.length ∧
          diffs (items.map itemScalar) =
            List.replicate (items.length - 2) d ++ [y])) :
    (sort_and_get_parameters items).slice_thickness = d := by
  have hpairs : List.Sorted scalarLE
      (items.map (fun it => (it, itemScalar it))) := by
    rw [List.Sorted, List.pairwise_map]
    rw [List.Sorted, List.pairwise_map] at hsorted
    exact hsorted
  have hins := List.Sorted.insertionSort_eq hpairs
  have hsnd : (items.map (fun it => (it, itemScalar it))).map
      (fun p => p.2) = items.map itemScalar := by
    rw [List.map_map]
    rfl
  simp only [sort_and_get_parameters, if_pos hall, hins, hsnd]
  rcases hcase with ⟨h2, hd⟩ | ⟨h3, hd⟩ | ⟨h4, hd⟩
  · rw [if_pos h2, hd]
    rfl
  · rw [if_neg (by omega), hd]
    exact median_replicate _ d (by omega)
  · rw [if_neg (by omega), hd]
    exact median_replicate_append _ d y (by omega)

/-- Metadata of a slice at axial position `z` in the canonical orientation
(rows along x, columns along y, dominant axis z). -/
def posMeta (z : ℚ) : GroupingMetadata :=
  ⟨"series1", (1, 0, 0), (0, 1, 0), some (0, 0, z), 2, 3, 1⟩

/-- Four evenly spaced slices at z = 0, 1, 2, 3. -/
def evenStack : List StackItem :=
  [⟨"/d/0", posMeta 0⟩, ⟨"/d/1", posMeta 1⟩, ⟨"/d/2", posMeta 2⟩,
    ⟨"/d/3", posMeta 3⟩]

/-- The same stack with the interior slice at z = 2 corrupted to z = 100. -/
def interiorOutlierStack : List StackItem :=
  [⟨"/d/0", posMeta 0⟩, ⟨"/d/1", posMeta 1⟩, ⟨"/d/2", posMeta 100⟩,
    ⟨"/d/3", posMeta 3⟩]

/-- The same stack with the last slice's position corrupted to z = 50. -/
def endOutlierStack : List StackItem :=
  [⟨"/d/0", posMeta 0⟩, ⟨"/d/1", posMeta 1⟩, ⟨"/d/2", posMeta 2⟩,
    ⟨"/d/3", posMeta 50⟩]

/-- The scalar coordinate of a slice in the canonical orientation is its z
position. -/
theorem itemScalar_posMeta (f : String) (z : ℚ) :
    itemScalar ⟨f, posMeta z⟩ = z := by
  simp [itemScalar, posMeta, sliceAxis, cross3, dot3]

/-- The stored position of a canonical-orientation slice. -/
theorem posMeta_position (z : ℚ) : (posMeta z).position = some (0, 0, z) := rfl

/-- C8 counterexample: four evenly spaced slices (spacing 1) give thickness
1, but corrupting the single interior position z = 2 to z = 100 changes the
computed thickness to 2 — a single outlier slice position *does* change the
result of the median-of-consecutive-differences estimator. -/
theorem slice_thickness_outlier_counterexample :
    (sort_and_get_parameters evenStack).slice_thickness = 1 ∧
      (sort_and_get_parameters interiorOutlierStack).slice_thickness = 2 ∧
      (sort_and_get_parameters interiorOutlierStack).slice_thickness ≠
        (sort_and_get_parameters evenStack).slice_thickness := by
  have he : (sort_and_get_parameters evenStack).slice_thickness = 1 := by
    norm_num [sort_and_get_parameters, evenStack, allPositionsKnown,
      scalarLE, itemScalar_posMeta, posMeta_position, median, diffs]
  have ho : (sort_and_get_parameters interiorOutlierStack).slice_thickness = 2 := by
    norm_num [sort_and_get_parameters, interiorOutlierStack, allPositionsKnown,
      scalarLE, itemScalar_posMeta, posMeta_position, median, diffs]
  refine ⟨he, ho, ?_⟩
  rw [he, ho]
  norm_num

/-- Witness for C8: the amended theorem applied to the four evenly spaced
slices (spacing 1) and to the end-outlier stack. -/
theorem slice_thickness_median_robust_witness :
    (sort_and_get_parameters evenStack).slice_thickness = 1 ∧
      (sort_and_get_parameters endOutlierStack).slice_thickness = 1 :=
  ⟨slice_thickness_median_robust evenStack 1 0 rfl
      (by norm_num [evenStack, itemScalar_posMeta, List.sorted_cons])
      (Or.inr (Or.inl ⟨by norm_num [evenStack],
        by norm_num [evenStack, itemScalar_posMeta, diffs, List.replicate]⟩)),
    slice_thickness_median_robust endOutlierStack 1 48 rfl
      (by norm_num [endOutlierStack, itemScalar_posMeta, List.sorted_cons])
      (Or.inr (Or.inr ⟨by norm_num [endOutlierStack],
        by norm_num [endOutlierStack, itemScalar_posMeta, diffs,
          List.replicate]⟩))⟩

/-! ## The orchestrator: `load_main_image_from_dicom_files` (`load.py`) -/

/-- The warning text emitted when more than one coherent group was found
(verbatim from the source, including its typo). -/
def multipleGroupingsText : String :=
  "I have removed some images from this dataset because the images " ++
    "did not form a coherent set. This may be due to the presence of " ++
    "scout images or dose reports, or localizer images in multiple " ++
    "orientations. I have formed a volume form the largest coherent " ++
    "set of images in the same orientation."

/-- The 5-tuple returned by `load_main_image_from_dicom_files`. -/
structure MainResult where
  image_wrapper : CoreWrapper
  representative_metadata : GroupingMetadata
  slice_thickness : ℚ
  global_origin_mm : ℚ × ℚ × ℚ
  sorted_positions : List ℚ
deriving DecidableEq, Repr

/-- `load_main_image_from_dicom_files` from `load.py`: run the metadata pass,
warn once if it produced more than one group, pick the largest group, sort it
geometrically, take the first sorted slice's metadata as representative, and
assemble the volume from the sorted stack.  An empty grouper or empty group
surfaces as the Python indexing/`max` error it would raise. -/
def load_main_image_from_dicom_files (fs : String → List Nat)
    (readMeta : String → GroupingMetadata)
    (decode : String → Except DicomError (Option NpArray))
    (image_path : String) (filenames : List String) :
    Except PyError MainResult × List Event :=
  let meta := load_metadata_from_dicom_files fs readMeta image_path filenames
  let warnEvents : List Event :=
    if 1 < meta.1.number_of_groups then
      [Event.showWarning "load_main_image_from_dicom_files:MultipleGroupings"
        multipleGroupingsText]
    else []
  match meta.1.largest_stack with
  | none => (Except.error PyError.valueError, meta.2 ++ warnEvents)
  | some main_group =>
    let sortRes := sort_and_get_parameters main_group
    match sortRes.sortedStack.head? with
    | none =>
        (Except.error PyError.indexError,
          meta.2 ++ warnEvents ++ sortRes.events)
    | some first =>
        let loadRes := load_images_from_stack decode sortRes.sortedStack
        match loadRes.1 with
        | Except.error e =>
            (Except.error e,
              meta.2 ++ warnEvents ++ sortRes.events ++ loadRes.2)
        | Except.ok w =>
            (Except.ok ⟨w, first.metadata, sortRes.slice_thickness,
                sortRes.global_origin_mm, sortRes.sorted_positions⟩,
              meta.2 ++ warnEvents ++ sortRes.events ++ loadRes.2)

/-- Every event of the metadata loop is a metadata-read record, a progress
update, or a not-a-DICOM warning. -/
theorem metadataLoop_events_shape (fs : String → List Nat)
    (readMeta : String → GroupingMetadata) (image_path : String)
    (numSlices : Nat) :
    ∀ (names : List String) (k : Nat) (g : DicomGrouper),
      ∀ e ∈ (metadataLoop fs readMeta image_path numSlices names k g).2,
        (∃ c, e = Event.readMetaCall c) ∨ (∃ v, e = Event.updateProgress v) ∨
          (∃ t, e = Event.showWarning
            "load_metadata_from_dicom_files:NotADicomFile" t) := by
  intro names
  induction names with
  | nil => intro k g e he; cases he
  | cons name rest ih =>
    intro k g e he
    rw [metadataLoop] at he
    by_cases h : is_dicom (fs (joinPath image_path name)) = true
    · simp only [if_pos h, List.mem_cons] at he
      rcases he with rfl | rfl | he
      · exact Or.inl ⟨_, rfl⟩
      · exact Or.inr (Or.inl ⟨_, rfl⟩)
      · exact ih (k + 1) _ e he
    · simp only [if_neg h, List.mem_cons] at he
      rcases he with rfl | rfl | he
      · exact Or.inr (Or.inr ⟨_, rfl⟩)
      · exact Or.inr (Or.inl ⟨_, rfl⟩)
      · exact ih (k + 1) g e he

/-- Every event of the slice loop is a decoder call naming one of its slices,
or a progress update. -/
theorem loadSlicesLoop_events_shape
    (decode : String → Except DicomError (Option NpArray)) (numSlices : Nat) :
    ∀ (items : List StackItem) (k : Nat),
      ∀ e ∈ (loadSlicesLoop decode numSlices items k).2,
        (∃ f, e = Event.decodeCall f ∧
          f ∈ items.map (fun it => it.filename)) ∨
          (∃ v, e = Event.updateProgress v) := by
  intro items
  induction items with
  | nil => intro k e he; cases he
  | cons item rest ih =>
    intro k e he
    rw [loadSlicesLoop] at he
    match hdec : decode item.filename with
    | Except.error err =>
      rw [hdec] at he
      simp only [List.mem_singleton] at he
      exact Or.inl ⟨item.filename, he, by simp⟩
    | Except.ok none =>
      rw [hdec] at he
      simp only [List.mem_singleton] at he
      exact Or.inl ⟨item.filename, he, by simp⟩
    | Except.ok (some img) =>
      rw [hdec] at he
      simp only [List.mem_cons] at he
      rcases he with rfl | rfl | he
      · exact Or.inl ⟨item.filename, rfl, by simp⟩
      · exact Or.inr ⟨_, rfl⟩
      · rcases ih (k + 1) e he with ⟨f, rfl, hf⟩ | hv
        · exact Or.inl ⟨f, rfl, List.mem_cons_of_mem _ hf⟩
        · exact Or.inr hv

/-- Every event of the volume assembler is progress, a message, or a decoder
call naming one of the stack's slices — never a warning. -/
theorem load_images_events_shape
    (decode : String → Except DicomError (Option NpArray))
    (stack : List StackItem) :
    ∀ e ∈ (load_images_from_stack decode stack).2,
      e = Event.showProgress "Reading pixel data" ∨
        (∃ v, e = Event.updateProgress v) ∨
        (∃ f, e = Event.decodeCall f ∧
          f ∈ stack.map (fun it => it.filename)) ∨
        (∃ c t, e = Event.showMessage c t) ∨
        e = Event.completeProgress := by
  intro e he
  match stack with
  | [] =>
    rw [load_images_from_stack] at he
    simp only [List.mem_cons, List.not_mem_nil, or_false] at he
    rcases he with rfl | rfl
    · exact Or.inl rfl
    · exact Or.inr (Or.inl ⟨_, rfl⟩)
  | s0 :: rest =>
    rw [load_images_from_stack] at he
    match hdec : decode s0.filename with
    | Except.error err =>
      rw [hdec] at he
      simp only [List.mem_append, List.mem_cons, List.mem_singleton,
        List.not_mem_nil, or_false] at he
      rcases he with (rfl | rfl) | rfl
      · exact Or.inl rfl
      · exact Or.inr (Or.inl ⟨_, rfl⟩)
      · exact Or.inr (Or.inr (Or.inl ⟨s0.filename, rfl, by simp⟩))
    | Except.ok none =>
      rw [hdec] at he
      simp only [List.mem_append, List.mem_cons, List.mem_singleton,
        List.not_mem_nil, or_false] at he
      rcases he with (rfl | rfl) | rfl
      · exact Or.inl rfl
      · exact Or.inr (Or.inl ⟨_, rfl⟩)
      · exact Or.inr (Or.inr (Or.inl ⟨s0.filename, rfl, by simp⟩))
    | Except.ok (some img) =>
      rw [hdec] at he
      simp only [dtypeEqualsNpCharModule, Bool.false_eq_true, if_false,
        ite_false, List.nil_append] at he
      match hloop : (loadSlicesLoop decode (rest.length + 1) rest 1).1 with
      | Except.error err =>
        rw [hloop] at he
        simp only [List.mem_append, List.mem_cons, List.not_mem_nil,
          or_false] at he
        rcases he with (rfl | rfl) | rfl | he
        · exact Or.inl rfl
        · exact Or.inr (Or.inl ⟨_, rfl⟩)
        · exact Or.inr (Or.inr (Or.inl ⟨s0.filename, rfl, by simp⟩))
        · rcases loadSlicesLoop_events_shape decode (rest.length + 1) rest 1
              e he with ⟨f, rfl, hf⟩ | ⟨v, rfl⟩
          · exact Or.inr (Or.inr (Or.inl ⟨f, rfl,
              List.mem_cons_of_mem _ hf⟩))
          · exact Or.inr (Or.inl ⟨v, rfl⟩)
      | Except.ok u =>
        rw [hloop] at he
        simp only [List.mem_append, List.mem_cons, List.mem_singleton,
          List.not_mem_nil, or_false] at he
        rcases he with (rfl | rfl) | rfl | he | rfl
        · exact Or.inl rfl
        · exact Or.inr (Or.inl ⟨_, rfl⟩)
        · exact Or.inr (Or.inr (Or.inl ⟨s0.filename, rfl, by simp⟩))
        · rcases loadSlicesLoop_events_shape decode (rest.length + 1) rest 1
              e he with ⟨f, rfl, hf⟩ | ⟨v, rfl⟩
          · exact Or.inr (Or.inr (Or.inl ⟨f, rfl,
              List.mem_cons_of_mem _ hf⟩))
          · exact Or.inr (Or.inl ⟨v, rfl⟩)
        · exact Or.inr (Or.inr (Or.inr (Or.inr rfl)))

/-- The sorted stack is a permutation of the group it was built from. -/
theorem sortedStack_perm (items : List StackItem) :
    (sort_and_get_parameters items).sortedStack.Perm items := by
  by_cases h : allPositionsKnown items = true
  · simp only [sort_and_get_parameters, if_pos h]
    have hp := (List.perm_insertionSort scalarLE
      (items.map (fun it => (it, itemScalar it)))).map
      (fun p : StackItem × ℚ => p.1)
    rw [List.map_map] at hp
    have hid : List.map ((fun p : StackItem × ℚ => p.1) ∘
        fun it => (it, itemScalar it)) items = items := List.map_id items
    rw [hid] at hp
    exact hp
  · simp only [sort_and_get_parameters, if_neg h]
    exact List.Perm.refl items

/-- Every event of the metadata pass is progress, a metadata read, or a
not-a-DICOM warning. -/
theorem load_metadata_events_shape (fs : String → List Nat)
    (readMeta : String → GroupingMetadata) (image_path : String)
    (filenames : List String) :
    ∀ e ∈ (load_metadata_from_dicom_files fs readMeta image_path filenames).2,
      (∃ l, e = Event.showProgress l) ∨ (∃ v, e = Event.updateProgress v) ∨
        e = Event.completeProgress ∨ (∃ c, e = Event.readMetaCall c) ∨
        (∃ t, e = Event.showWarning
          "load_metadata_from_dicom_files:NotADicomFile" t) := by
  intro e he
  simp only [load_metadata_from_dicom_files, List.mem_append, List.mem_cons,
    List.mem_singleton, List.not_mem_nil, or_false] at he
  rcases he with ((rfl | rfl) | he) | rfl
  · exact Or.inl ⟨_, rfl⟩
  · exact Or.inr (Or.inl ⟨_, rfl⟩)
  · rcases metadataLoop_events_shape fs readMeta image_path filenames.length
        (sort_filenames filenames) 0 DicomGrouper.empty e he with
      ⟨c, rfl⟩ | ⟨v, rfl⟩ | ⟨t, rfl⟩
    · exact Or.inr (Or.inr (Or.inr (Or.inl ⟨_, rfl⟩)))
    · exact Or.inr (Or.inl ⟨_, rfl⟩)
    · exact Or.inr (Or.inr (Or.inr (Or.inr ⟨_, rfl⟩)))
  · exact Or.inr (Or.inr (Or.inl rfl))

/-- Every event of `sort_and_get_parameters` is its fallback warning. -/
theorem sort_events_shape (items : List StackItem) :
    ∀ e ∈ (sort_and_get_parameters items).events,
      ∃ t, e = Event.showWarning "sort_and_get_parameters:NoSliceLocation" t := by
  intro e he
  by_cases h : allPositionsKnown items = true
  · simp only [sort_and_get_parameters, if_pos h] at he
    cases he
  · simp only [sort_and_get_parameters, if_neg h, List.mem_singleton] at he
    exact ⟨_, he⟩

/-- Decomposition of the orchestrator's event stream: the metadata pass's
events, then the multiple-groupings warning exactly when more than one group
was found, then a tail containing no warning other than the geometric
fallback warning, and whose decoder calls all name slices of the largest
group. -/
theorem load_main_events_decomp (fs : String → List Nat)
    (readMeta : String → GroupingMetadata)
    (decode : String → Except DicomError (Option NpArray))
    (image_path : String) (filenames : List String) :
    ∃ tail : List Event,
      (load_main_image_from_dicom_files fs readMeta decode image_path
          filenames).2 =
        (load_metadata_from_dicom_files fs readMeta image_path filenames).2 ++
          ((if 1 < (load_metadata_from_dicom_files fs readMeta image_path
                filenames).1.number_of_groups then
              [Event.showWarning
                "load_main_image_from_dicom_files:MultipleGroupings"
                multipleGroupingsText]
            else []) ++ tail) ∧
      ∀ e ∈ tail,
        (∃ t, e = Event.showWarning "sort_and_get_parameters:NoSliceLocation" t) ∨
          e = Event.showProgress "Reading pixel data" ∨
          (∃ v, e = Event.updateProgress v) ∨
          (∃ c t, e = Event.showMessage c t) ∨
          e = Event.completeProgress ∨
          (∃ f grp, e = Event.decodeCall f ∧
            (load_metadata_from_dicom_files fs readMeta image_path
              filenames).1.largest_stack = some grp ∧
            f ∈ grp.map (fun it => it.filename)) := by
  cases hls : (load_metadata_from_dicom_files fs readMeta image_path
      filenames).1.largest_stack with
  | none =>
    refine ⟨[], ?_, ?_⟩
    · simp only [load_main_image_from_dicom_files, hls, List.append_nil]
    · intro e he
      cases he
  | some grp =>
    have htail : ∀ e ∈ (sort_and_get_parameters grp).events ++
        (load_images_from_stack decode
          (sort_and_get_parameters grp).sortedStack).2,
        (∃ t, e = Event.showWarning "sort_and_get_parameters:NoSliceLocation" t) ∨
          e = Event.showProgress "Reading pixel data" ∨
          (∃ v, e = Event.updateProgress v) ∨
          (∃ c t, e = Event.showMessage c t) ∨
          e = Event.completeProgress ∨
          (∃ f grp', e = Event.decodeCall f ∧
            (some grp : Option (List StackItem)) = some grp' ∧
            f ∈ grp'.map (fun it => it.filename)) := by
      intro e he
      rcases List.mem_append.mp he with he | he
      · exact Or.inl (sort_events_shape grp e he)
      · rcases load_images_events_shape decode _ e he with
          rfl | ⟨v, rfl⟩ | ⟨f, rfl, hf⟩ | ⟨c, t, rfl⟩ | rfl
        · exact Or.inr (Or.inl rfl)
        · exact Or.inr (Or.inr (Or.inl ⟨_, rfl⟩))
        · refine Or.inr (Or.inr (Or.inr (Or.inr (Or.inr
            ⟨f, grp, rfl, rfl, ?_⟩))))
          exact ((sortedStack_perm grp).map
            (fun it => it.filename)).mem_iff.mp hf
        · exact Or.inr (Or.inr (Or.inr (Or.inl ⟨_, _, rfl⟩)))
        · exact Or.inr (Or.inr (Or.inr (Or.inr (Or.inl rfl))))
    cases hhd : (sort_and_get_parameters grp).sortedStack.head? with
    | none =>
      refine ⟨(sort_and_get_parameters grp).events, ?_, ?_⟩
      · simp only [load_main_image_from_dicom_files, hls, hhd,
          List.append_assoc]
      · intro e he
        exact Or.inl (sort_events_shape grp e he)
    | some first =>
      cases hld : (load_images_from_stack decode
          (sort_and_get_parameters grp).sortedStack).1 with
      | error err =>
        refine ⟨(sort_and_get_parameters grp).events ++
          (load_images_from_stack decode
            (sort_and_get_parameters grp).sortedStack).2, ?_, htail⟩
        simp only [load_main_image_from_dicom_files, hls, hhd, hld,
          List.append_assoc]
      | ok w =>
        refine ⟨(sort_and_get_parameters grp).events ++
          (load_images_from_stack decode
            (sort_and_get_parameters grp).sortedStack).2, ?_, htail⟩
        simp only [load_main_image_from_dicom_files, hls, hhd, hld,
          List.append_assoc]

/-- The metadata pass emits no multiple-groupings warning of its own. -/
theorem countMG_meta_zero (fs : String → List Nat)
    (readMeta : String → GroupingMetadata) (image_path : String)
    (filenames : List String) :
    ((load_metadata_from_dicom_files fs readMeta image_path
        filenames).2.countP
      (Event.isWarningWithCode
        "load_main_image_from_dicom_files:MultipleGroupings")) = 0 := by
  rw [List.countP_eq_zero]
  intro e he
  rcases load_metadata_events_shape fs readMeta image_path filenames e he with
    ⟨l, rfl⟩ | ⟨v, rfl⟩ | rfl | ⟨c, rfl⟩ | ⟨t, rfl⟩ <;>
    simp [Event.isWarningWithCode]

/-! ## Claim C6: the multiple-groupings warning -/

/-- C6: when the metadata pass produced more than one group, exactly one
multiple-groupings warning is emitted by the orchestrator; when it produced a
single group, none is; and every decoder call of the run names a slice of the
largest group, so the volume is assembled from the largest group only. -/
theorem main_pipeline_multiple_groupings_warning (fs : String → List Nat)
    (readMeta : String → GroupingMetadata)
    (decode : String → Except DicomError (Option NpArray))
    (image_path : String) (filenames : List String) :
    (1 < (load_metadata_from_dicom_files fs readMeta image_path
        filenames).1.number_of_groups →
      ((load_main_image_from_dicom_files fs readMeta decode image_path
          filenames).2.countP
        (Event.isWarningWithCode
          "load_main_image_from_dicom_files:MultipleGroupings")) = 1) ∧
    ((load_metadata_from_dicom_files fs readMeta image_path
        filenames).1.number_of_groups = 1 →
      ((load_main_image_from_dicom_files fs readMeta decode image_path
          filenames).2.countP
        (Event.isWarningWithCode
          "load_main_image_from_dicom_files:MultipleGroupings")) = 0) ∧
    (∀ (f : String) (grp : List StackItem),
      (load_metadata_from_dicom_files fs readMeta image_path
        filenames).1.largest_stack = some grp →
      Event.decodeCall f ∈ (load_main_image_from_dicom_files fs readMeta
        decode image_path filenames).2 →
      f ∈ grp.map (fun it => it.filename)) := by
  obtain ⟨tail, hdecomp, hshape⟩ :=
    load_main_events_decomp fs readMeta decode image_path filenames
  have htail0 : tail.countP
      (Event.isWarningWithCode
        "load_main_image_from_dicom_files:MultipleGroupings") = 0 := by
    rw [List.countP_eq_zero]
    intro e he
    rcases hshape e he with
      ⟨t, rfl⟩ | rfl | ⟨v, rfl⟩ | ⟨c, t, rfl⟩ | rfl | ⟨f, grp, rfl, _, _⟩ <;>
      simp [Event.isWarningWithCode]
  have hmeta0 := countMG_meta_zero fs readMeta image_path filenames
  refine ⟨?_, ?_, ?_⟩
  · intro hn
    rw [hdecomp, List.countP_append, List.countP_append, hmeta0, htail0,
      if_pos hn]
    simp [List.countP_cons, Event.isWarningWithCode]
  · intro hn
    rw [hdecomp, List.countP_append, List.countP_append, hmeta0, htail0,
      if_neg (by omega)]
    rfl
  · intro f grp hls hmem
    rw [hdecomp] at hmem
    rcases List.mem_append.mp hmem with hmem | hmem
    · rcases load_metadata_events_shape fs readMeta image_path filenames _
          hmem with ⟨l, h⟩ | ⟨v, h⟩ | h | ⟨c, h⟩ | ⟨t, h⟩ <;>
        exact Event.noConfusion h
    · rcases List.mem_append.mp hmem with hmem | hmem
      · by_cases hn : 1 < (load_metadata_from_dicom_files fs readMeta
            image_path filenames).1.number_of_groups
        · rw [if_pos hn] at hmem
          rw [List.mem_singleton] at hmem
          exact Event.noConfusion hmem
        · rw [if_neg hn] at hmem
          cases hmem
      · rcases hshape _ hmem with
          ⟨t, h⟩ | h | ⟨v, h⟩ | ⟨c, t, h⟩ | h | ⟨f', grp', h, hg, hf'⟩
        · exact Event.noConfusion h
        · exact Event.noConfusion h
        · exact Event.noConfusion h
        · exact Event.noConfusion h
        · exact Event.noConfusion h
        · have hff : f = f' := by
            injection h
          have hgg : grp = grp' := by
            injection hls.symm.trans hg
          rw [hff, hgg]
          exact hf'

/-- Metadata whose series key is the file's own path: every file lands in its
own group. -/
def perFileMeta : String → GroupingMetadata :=
  fun c => { exMeta with seriesKey := c }

/-- Witness for C6: two files with distinct series keys yield two groups and
exactly one multiple-groupings warning; a single file yields one group and no
such warning. -/
theorem main_pipeline_multiple_groupings_warning_witness :
    1 < (load_metadata_from_dicom_files dicmFs perFileMeta "/d"
        ["a", "b"]).1.number_of_groups ∧
      ((load_main_image_from_dicom_files dicmFs perFileMeta okDecode "/d"
          ["a", "b"]).2.countP
        (Event.isWarningWithCode
          "load_main_image_from_dicom_files:MultipleGroupings")) = 1 ∧
      (load_metadata_from_dicom_files dicmFs (fun _ => exMeta) "/d"
        ["a"]).1.number_of_groups = 1 ∧
      ((load_main_image_from_dicom_files dicmFs (fun _ => exMeta) okDecode
          "/d" ["a"]).2.countP
        (Event.isWarningWithCode
          "load_main_image_from_dicom_files:MultipleGroupings")) = 0 :=
  ⟨by decide,
    (main_pipeline_multiple_groupings_warning dicmFs perFileMeta okDecode
      "/d" ["a", "b"]).1 (by decide),
    by decide,
    (main_pipeline_multiple_groupings_warning dicmFs (fun _ => exMeta)
      okDecode "/d" ["a"]).2.1 (by decide)⟩

end Dicomity
